import Mathlib

/-!
# Verification of the ODE stepper module (`src/ode/ode.py`)

Shallow embedding of the three fixed-step explicit ODE integrators
`Euler`, `RK2`, `RK4` from `ode.py`, over exact rational arithmetic.
Each Python function computes `h = (tf-ti)/N`, builds the grid
`t = np.linspace(ti, tf, N)`, allocates `x` with `x[0] = xi`, and fills
`x[i+1]` from `x[i]` and `t[i]` by its update rule, for
`i in range(len(t)-1)`.
-/

/-- `np.linspace ti tf N`: `N` evenly spaced points from `ti` to `tf`
inclusive.  NumPy returns `[]` for `N = 0` and `[ti]` for `N = 1`;
otherwise point `i` is `ti + i * (tf - ti)/(N - 1)`. -/
def linspace (ti tf : ℚ) (N : ℕ) : List ℚ :=
  if N = 1 then [ti]
  else (List.range N).map (fun (i : ℕ) => ti + (i : ℚ) * ((tf - ti) / ((N : ℚ) - 1)))

/-- The shared fill loop of all three steppers: the result has the same
length as the grid `ts`, starts at `x0`, and each later entry is
`g` applied to the previous entry and the previous grid point
(`for i in range(len(t)-1): x[i+1] = g(x[i], t[i])`). -/
def fill (g : ℚ → ℚ → ℚ) : ℚ → List ℚ → List ℚ
  | _, [] => []
  | x0, [_] => [x0]
  | x0, t0 :: t1 :: ts => x0 :: fill g (g x0 t0) (t1 :: ts)

/-- Loop body of `Euler`: `x[i+1] = x[i] + h * f(x[i], t[i])`. -/
def eulerStep (f : ℚ → ℚ → ℚ) (h x t : ℚ) : ℚ :=
  x + h * f x t

/-- Loop body of `RK2`:
`k1 = h*f(x,t); k2 = h*f(x + k1/2, t + h/2); x + k2`. -/
def rk2Step (f : ℚ → ℚ → ℚ) (h x t : ℚ) : ℚ :=
  let k1 := h * f x t
  let k2 := h * f (x + k1 / 2) (t + h / 2)
  x + k2

/-- Loop body of `RK4`: the classical four-stage combination. -/
def rk4Step (f : ℚ → ℚ → ℚ) (h x t : ℚ) : ℚ :=
  let k1 := h * f x t
  let k2 := h * f (x + k1 / 2) (t + h / 2)
  let k3 := h * f (x + k2 / 2) (t + h / 2)
  let k4 := h * f (x + k3) (t + h)
  x + (1 / 6) * (k1 + 2 * k2 + 2 * k3 + k4)

/-- `Euler(f, N, xi, ti, tf)` from `ode.py`. -/
def Euler (f : ℚ → ℚ → ℚ) (N : ℕ) (xi ti tf : ℚ) : List ℚ :=
  fill (eulerStep f ((tf - ti) / (N : ℚ))) xi (linspace ti tf N)

/-- `RK2(f, N, xi, ti, tf)` from `ode.py`. -/
def RK2 (f : ℚ → ℚ → ℚ) (N : ℕ) (xi ti tf : ℚ) : List ℚ :=
  fill (rk2Step f ((tf - ti) / (N : ℚ))) xi (linspace ti tf N)

/-- `RK4(f, N, xi, ti, tf)` from `ode.py`. -/
def RK4 (f : ℚ → ℚ → ℚ) (N : ℕ) (xi ti tf : ℚ) : List ℚ :=
  fill (rk4Step f ((tf - ti) / (N : ℚ))) xi (linspace ti tf N)

/-! ## Call-counting instrumentation

The same loops, with the derivative function instrumented as
`F : ℚ → ℚ → ℚ × ℕ`: the second component of each application is the
number of invocations it performs (1 for a plain function).  The loop
and the stage bodies add up the counts of the `f`-application sites
they actually execute. -/

/-- Instrumented body of `Euler`: one application of `F`. -/
def eulerStepC (F : ℚ → ℚ → ℚ × ℕ) (h x t : ℚ) : ℚ × ℕ :=
  let p1 := F x t
  (x + h * p1.1, p1.2)

/-- Instrumented body of `RK2`: two applications of `F`. -/
def rk2StepC (F : ℚ → ℚ → ℚ × ℕ) (h x t : ℚ) : ℚ × ℕ :=
  let p1 := F x t
  let k1 := h * p1.1
  let p2 := F (x + k1 / 2) (t + h / 2)
  let k2 := h * p2.1
  (x + k2, p1.2 + p2.2)

/-- Instrumented body of `RK4`: four applications of `F`. -/
def rk4StepC (F : ℚ → ℚ → ℚ × ℕ) (h x t : ℚ) : ℚ × ℕ :=
  let p1 := F x t
  let k1 := h * p1.1
  let p2 := F (x + k1 / 2) (t + h / 2)
  let k2 := h * p2.1
  let p3 := F (x + k2 / 2) (t + h / 2)
  let k3 := h * p3.1
  let p4 := F (x + k3) (t + h)
  let k4 := h * p4.1
  (x + (1 / 6) * (k1 + 2 * k2 + 2 * k3 + k4), p1.2 + p2.2 + p3.2 + p4.2)

/-- Instrumented fill loop: returns the trajectory together with the
total number of `F` invocations performed by the executed loop bodies. -/
def fillC (g : ℚ → ℚ → ℚ × ℕ) : ℚ → List ℚ → List ℚ × ℕ
  | _, [] => ([], 0)
  | x0, [_] => ([x0], 0)
  | x0, t0 :: t1 :: ts =>
    let p := g x0 t0
    let r := fillC g p.1 (t1 :: ts)
    (x0 :: r.1, p.2 + r.2)

/-- Instrumented `Euler`. -/
def EulerC (F : ℚ → ℚ → ℚ × ℕ) (N : ℕ) (xi ti tf : ℚ) : List ℚ × ℕ :=
  fillC (eulerStepC F ((tf - ti) / (N : ℚ))) xi (linspace ti tf N)

/-- Instrumented `RK2`. -/
def RK2C (F : ℚ → ℚ → ℚ × ℕ) (N : ℕ) (xi ti tf : ℚ) : List ℚ × ℕ :=
  fillC (rk2StepC F ((tf - ti) / (N : ℚ))) xi (linspace ti tf N)

/-- Instrumented `RK4`. -/
def RK4C (F : ℚ → ℚ → ℚ × ℕ) (N : ℕ) (xi ti tf : ℚ) : List ℚ × ℕ :=
  fillC (rk4StepC F ((tf - ti) / (N : ℚ))) xi (linspace ti tf N)

/-! ## Fallible model over integer `N`

In Python, `N` is an `int`.  Each stepper first computes
`h = (tf-ti)/N`, which raises `ZeroDivisionError` when `N = 0`; then it
calls `np.linspace(ti, tf, N)`, which raises `ValueError` when `N < 0`.
For `N > 0` execution proceeds as in the total model. -/

/-- Error raised by `(tf-ti)/N` when `N = 0`. -/
def zeroDivErr : String := "ZeroDivisionError: division by zero"

/-- Error raised by `np.linspace(ti, tf, N)` when `N < 0`. -/
def negSamplesErr : String := "ValueError: Number of samples must be non-negative"

/-- `Euler` over a Python `int` step count, with the failure modes of
the division and of `np.linspace`. -/
def EulerRun (f : ℚ → ℚ → ℚ) (N : ℤ) (xi ti tf : ℚ) : Except String (List ℚ) :=
  if N = 0 then .error zeroDivErr
  else if N < 0 then .error negSamplesErr
  else .ok (Euler f N.toNat xi ti tf)

/-- `RK2` over a Python `int` step count. -/
def RK2Run (f : ℚ → ℚ → ℚ) (N : ℤ) (xi ti tf : ℚ) : Except String (List ℚ) :=
  if N = 0 then .error zeroDivErr
  else if N < 0 then .error negSamplesErr
  else .ok (RK2 f N.toNat xi ti tf)

/-- `RK4` over a Python `int` step count. -/
def RK4Run (f : ℚ → ℚ → ℚ) (N : ℤ) (xi ti tf : ℚ) : Except String (List ℚ) :=
  if N = 0 then .error zeroDivErr
  else if N < 0 then .error negSamplesErr
  else .ok (RK4 f N.toNat xi ti tf)

/-! ## Module-level call traces

The module holds no mutable state: a session is just a list of calls,
each interpreted by the corresponding pure function. -/

/-- Which of the three steppers a call targets. -/
inductive Method
  | euler
  | rk2
  | rk4
deriving DecidableEq

/-- One call into the module: the stepper chosen and its arguments. -/
structure ModCall where
  m : Method
  f : ℚ → ℚ → ℚ
  N : ℕ
  xi : ℚ
  ti : ℚ
  tf : ℚ

/-- Interpretation of a single call. -/
def runCall (c : ModCall) : List ℚ :=
  match c.m with
  | .euler => Euler c.f c.N c.xi c.ti c.tf
  | .rk2 => RK2 c.f c.N c.xi c.ti c.tf
  | .rk4 => RK4 c.f c.N c.xi c.ti c.tf

/-- Interpretation of a session: every call is interpreted on its own. -/
def runCalls (cs : List ModCall) : List (List ℚ) :=
  cs.map runCall

/-! ## Concrete sample values

`h`, `x[1]`, `t[1]` and the four RK4 stages for the sample run
`RK4(f, 3, 0.0, 0.0, 1.0)` with `f(x,t) = x + t`, used to exhibit the
update rule on a concrete input. -/

/-- `h = (tf-ti)/N` of the sample RK4 run. -/
def rk4WitH : ℚ := ((1 : ℚ) - 0) / ((3 : ℕ) : ℚ)

/-- `x[1]` of the sample RK4 run. -/
def rk4WitX : ℚ := (RK4 (fun x t => x + t) 3 0 0 1).getD 1 0

/-- `t[1]` of the sample RK4 run. -/
def rk4WitT : ℚ := (linspace 0 1 3).getD 1 0

/-- Stage `k1` of the sample RK4 run at `i = 1`. -/
def rk4WitK1 : ℚ := rk4WitH * (rk4WitX + rk4WitT)

/-- Stage `k2` of the sample RK4 run at `i = 1`. -/
def rk4WitK2 : ℚ :=
  rk4WitH * ((rk4WitX + rk4WitK1 / 2) + (rk4WitT + rk4WitH / 2))

/-- Stage `k3` of the sample RK4 run at `i = 1`. -/
def rk4WitK3 : ℚ :=
  rk4WitH * ((rk4WitX + rk4WitK2 / 2) + (rk4WitT + rk4WitH / 2))

/-- Stage `k4` of the sample RK4 run at `i = 1`. -/
def rk4WitK4 : ℚ :=
  rk4WitH * ((rk4WitX + rk4WitK3) + (rk4WitT + rk4WitH))

/-! ## Lemmas about the fill loop -/

theorem fill_length (g : ℚ → ℚ → ℚ) :
    ∀ (ts : List ℚ) (x0 : ℚ), (fill g x0 ts).length = ts.length
  | [], _ => rfl
  | [_], _ => rfl
  | _ :: t1 :: ts, x0 => by
    simp only [fill, List.length_cons]
    rw [fill_length g (t1 :: ts)]
    simp

theorem fill_getD_zero (g : ℚ → ℚ → ℚ) (ts : List ℚ) (x0 : ℚ)
    (h : ts ≠ []) : (fill g x0 ts).getD 0 0 = x0 := by
  match ts with
  | [] => exact absurd rfl h
  | [_] => rfl
  | _ :: _ :: _ => rfl

theorem fill_getD_succ (g : ℚ → ℚ → ℚ) :
    ∀ (ts : List ℚ) (x0 : ℚ) (i : ℕ), i + 1 < ts.length →
      (fill g x0 ts).getD (i + 1) 0 =
        g ((fill g x0 ts).getD i 0) (ts.getD i 0)
  | [], _, _, h => by simp at h
  | [_], _, _, h => by simp at h
  | t0 :: t1 :: ts, x0, 0, _ => by
    show (fill g (g x0 t0) (t1 :: ts)).getD 0 0 = g x0 t0
    rw [fill_getD_zero g (t1 :: ts) (g x0 t0) (by simp)]
  | t0 :: t1 :: ts, x0, i + 1, h => by
    have hlt : i + 1 < (t1 :: ts).length := by
      simpa [Nat.succ_lt_succ_iff] using h
    show (fill g (g x0 t0) (t1 :: ts)).getD (i + 1) 0 = _
    rw [fill_getD_succ g (t1 :: ts) (g x0 t0) i hlt]
    rfl

theorem fill_congr (g1 g2 : ℚ → ℚ → ℚ) (hg : ∀ x t, g1 x t = g2 x t) :
    ∀ (ts : List ℚ) (x0 : ℚ), fill g1 x0 ts = fill g2 x0 ts
  | [], _ => rfl
  | [_], _ => rfl
  | t0 :: t1 :: ts, x0 => by
    simp only [fill]
    rw [hg x0 t0, fill_congr g1 g2 hg (t1 :: ts)]

theorem fillC_snd (g : ℚ → ℚ → ℚ × ℕ) (k : ℕ) (hg : ∀ x t, (g x t).2 = k) :
    ∀ (ts : List ℚ) (x0 : ℚ), (fillC g x0 ts).2 = k * (ts.length - 1)
  | [], _ => by simp [fillC]
  | [_], _ => by simp [fillC]
  | t0 :: t1 :: ts, x0 => by
    simp only [fillC]
    rw [hg, fillC_snd g k hg (t1 :: ts)]
    simp only [List.length_cons, Nat.add_sub_cancel, Nat.mul_succ]
    omega

theorem fillC_fst (g : ℚ → ℚ → ℚ × ℕ) (g0 : ℚ → ℚ → ℚ)
    (hg : ∀ x t, (g x t).1 = g0 x t) :
    ∀ (ts : List ℚ) (x0 : ℚ), (fillC g x0 ts).1 = fill g0 x0 ts
  | [], _ => rfl
  | [_], _ => rfl
  | t0 :: t1 :: ts, x0 => by
    simp only [fillC, fill]
    rw [hg x0 t0, fillC_fst g g0 hg (t1 :: ts)]

/-! ## Lemmas about the grid -/

theorem linspace_length (ti tf : ℚ) (N : ℕ) : (linspace ti tf N).length = N := by
  rw [linspace]
  split
  · simp_all
  · simp

theorem linspace_getD (ti tf : ℚ) (N : ℕ) (hN : 2 ≤ N) (i : ℕ) (hi : i < N) :
    (linspace ti tf N).getD i 0 = ti + (i : ℚ) * ((tf - ti) / ((N : ℚ) - 1)) := by
  rw [linspace, if_neg (by omega), List.getD_eq_getElem?_getD,
    List.getElem?_map, List.getElem?_range hi]
  rfl

theorem linspace_ne_nil (ti tf : ℚ) (N : ℕ) (hN : 1 ≤ N) :
    linspace ti tf N ≠ [] := by
  intro hcon
  have := linspace_length ti tf N
  rw [hcon] at this
  simp at this
  omega

/-! ## Claim theorems -/

/-- C4: for every stepper, every `f`, every `N ≥ 1` and all inputs, the
returned sequence has length exactly `N` and its first element equals
`xi` exactly. -/
theorem steppers_length_and_head (f : ℚ → ℚ → ℚ) (N : ℕ) (hN : 1 ≤ N)
    (xi ti tf : ℚ) :
    (Euler f N xi ti tf).length = N ∧ (Euler f N xi ti tf).getD 0 0 = xi ∧
    (RK2 f N xi ti tf).length = N ∧ (RK2 f N xi ti tf).getD 0 0 = xi ∧
    (RK4 f N xi ti tf).length = N ∧ (RK4 f N xi ti tf).getD 0 0 = xi := by
  have hne := linspace_ne_nil ti tf N hN
  refine ⟨?_, fill_getD_zero _ _ _ hne, ?_, fill_getD_zero _ _ _ hne,
    ?_, fill_getD_zero _ _ _ hne⟩ <;>
    simp [Euler, RK2, RK4, fill_length, linspace_length]

/-- C4 witness at `f(x,t) = x + t`, `N = 3`. -/
theorem steppers_length_and_head_holds :
    1 ≤ 3 ∧
    ((Euler (fun x t => x + t) 3 0 0 1).length = 3 ∧
     (Euler (fun x t => x + t) 3 0 0 1).getD 0 0 = 0 ∧
     (RK2 (fun x t => x + t) 3 0 0 1).length = 3 ∧
     (RK2 (fun x t => x + t) 3 0 0 1).getD 0 0 = 0 ∧
     (RK4 (fun x t => x + t) 3 0 0 1).length = 3 ∧
     (RK4 (fun x t => x + t) 3 0 0 1).getD 0 0 = 0) :=
  ⟨by norm_num, steppers_length_and_head (fun x t => x + t) 3 (by norm_num) 0 0 1⟩

/-- C5: for `N ≥ 1` the grid has length `N`, starts at `ti`, is `[ti]`
when `N = 1`, and for `N ≥ 2` ends at `tf`, follows the linear-spacing
formula, and is strictly monotonic (increasing when `ti < tf`,
decreasing when `tf < ti`). -/
theorem linspace_grid_props (ti tf : ℚ) (N : ℕ) (hN : 1 ≤ N) :
    (linspace ti tf N).length = N ∧
    (linspace ti tf N).getD 0 0 = ti ∧
    (N = 1 → linspace ti tf N = [ti]) ∧
    (2 ≤ N →
      (linspace ti tf N).getD (N - 1) 0 = tf ∧
      (∀ i, i < N → (linspace ti tf N).getD i 0 =
        ti + (i : ℚ) * ((tf - ti) / ((N : ℚ) - 1))) ∧
      (∀ i j, i < j → j < N →
        (ti < tf → (linspace ti tf N).getD i 0 < (linspace ti tf N).getD j 0) ∧
        (tf < ti → (linspace ti tf N).getD j 0 < (linspace ti tf N).getD i 0))) := by
  refine ⟨linspace_length ti tf N, ?_, ?_, ?_⟩
  · rcases Nat.lt_or_ge N 2 with h2 | h2
    · have h1 : N = 1 := by omega
      subst h1
      simp [linspace]
    · rw [linspace_getD ti tf N h2 0 (by omega)]
      simp
  · intro h1
    subst h1
    simp [linspace]
  · intro h2
    have hQ2 : (2 : ℚ) ≤ (N : ℚ) := by exact_mod_cast h2
    have hden : ((N : ℚ) - 1) ≠ 0 := by linarith
    refine ⟨?_, fun i hi => linspace_getD ti tf N h2 i hi, ?_⟩
    · rw [linspace_getD ti tf N h2 (N - 1) (by omega)]
      have hcast : ((N - 1 : ℕ) : ℚ) = (N : ℚ) - 1 := by
        push_cast [Nat.cast_sub hN]
        ring
      rw [hcast]
      field_simp
    · intro i j hij hj
      rw [linspace_getD ti tf N h2 i (by omega), linspace_getD ti tf N h2 j hj]
      have hijQ : (i : ℚ) < (j : ℚ) := by exact_mod_cast hij
      constructor
      · intro hlt
        have hs : 0 < (tf - ti) / ((N : ℚ) - 1) :=
          div_pos (by linarith) (by linarith)
        nlinarith
      · intro hlt
        have hs : (tf - ti) / ((N : ℚ) - 1) < 0 :=
          div_neg_of_neg_of_pos (by linarith) (by linarith)
        nlinarith

/-- C5 witness at `N = 4`, `ti = 0`, `tf = 1`. -/
theorem linspace_grid_props_holds :
    1 ≤ 4 ∧
    ((linspace 0 1 4).length = 4 ∧
     (linspace 0 1 4).getD 0 0 = 0 ∧
     (4 = 1 → linspace 0 1 4 = [0]) ∧
     (2 ≤ 4 →
       (linspace 0 1 4).getD (4 - 1) 0 = 1 ∧
       (∀ i, i < 4 → (linspace 0 1 4).getD i 0 =
         0 + (i : ℚ) * ((1 - 0) / ((4 : ℚ) - 1))) ∧
       (∀ i j, i < j → j < 4 →
         ((0 : ℚ) < 1 → (linspace 0 1 4).getD i 0 < (linspace 0 1 4).getD j 0) ∧
         ((1 : ℚ) < 0 → (linspace 0 1 4).getD j 0 < (linspace 0 1 4).getD i 0)))) :=
  ⟨by norm_num, linspace_grid_props 0 1 4 (by norm_num)⟩

/-- C2: for `N ≥ 2` and `i ≤ N-2`, Euler satisfies
`x[i+1] = x[i] + h·f(x[i], t[i])` with `h = (tf-ti)/N`; moreover the
local grid spacing is `(tf-ti)/(N-1)`, which differs from `h` whenever
`ti ≠ tf`. -/
theorem euler_update_rule (f : ℚ → ℚ → ℚ) (N : ℕ) (hN : 2 ≤ N)
    (xi ti tf : ℚ) (i : ℕ) (hi : i ≤ N - 2) (h xv tv : ℚ)
    (hh : h = (tf - ti) / (N : ℚ))
    (hx : xv = (Euler f N xi ti tf).getD i 0)
    (ht : tv = (linspace ti tf N).getD i 0) :
    (Euler f N xi ti tf).getD (i + 1) 0 = xv + h * f xv tv ∧
    (linspace ti tf N).getD (i + 1) 0 - tv = (tf - ti) / ((N : ℚ) - 1) ∧
    (ti ≠ tf → h ≠ (linspace ti tf N).getD (i + 1) 0 - tv) := by
  subst hh hx ht
  have hb : i + 1 < (linspace ti tf N).length := by
    rw [linspace_length]; omega
  have hQ2 : (2 : ℚ) ≤ (N : ℚ) := by exact_mod_cast hN
  have hN0 : (N : ℚ) ≠ 0 := by linarith
  have hden : ((N : ℚ) - 1) ≠ 0 := by linarith
  have hspace : (linspace ti tf N).getD (i + 1) 0 -
      (linspace ti tf N).getD i 0 = (tf - ti) / ((N : ℚ) - 1) := by
    rw [linspace_getD ti tf N hN (i + 1) (by omega),
      linspace_getD ti tf N hN i (by omega)]
    push_cast
    ring
  refine ⟨?_, hspace, ?_⟩
  · exact fill_getD_succ (eulerStep f ((tf - ti) / (N : ℚ)))
      (linspace ti tf N) xi i hb
  · intro hne
    rw [hspace]
    intro heq
    apply hne
    rw [div_eq_div_iff hN0 hden] at heq
    have : tf - ti = 0 := by nlinarith
    linarith

/-- C2 witness at `f(x,t) = x + t`, `N = 3`, `i = 1`. -/
theorem euler_update_rule_holds :
    2 ≤ 3 ∧ 1 ≤ 3 - 2 ∧
    ((Euler (fun x t => x + t) 3 0 0 1).getD (1 + 1) 0 =
      (Euler (fun x t => x + t) 3 0 0 1).getD 1 0 +
        (((1 : ℚ) - 0) / ((3 : ℕ) : ℚ)) *
          ((Euler (fun x t => x + t) 3 0 0 1).getD 1 0 +
            (linspace 0 1 3).getD 1 0) ∧
     (linspace 0 1 3).getD (1 + 1) 0 - (linspace 0 1 3).getD 1 0 =
       ((1 : ℚ) - 0) / (((3 : ℕ) : ℚ) - 1) ∧
     ((0 : ℚ) ≠ 1 → ((1 : ℚ) - 0) / ((3 : ℕ) : ℚ) ≠
       (linspace 0 1 3).getD (1 + 1) 0 - (linspace 0 1 3).getD 1 0)) :=
  ⟨by norm_num, by norm_num,
    euler_update_rule (fun x t => x + t) 3 (by norm_num) 0 0 1 1 (by norm_num)
      _ _ _ rfl rfl rfl⟩

/-- C3: for `N ≥ 2` and `i ≤ N-2`, RK2 satisfies `x[i+1] = x[i] + k2`
with `k1 = h·f(x[i], t[i])`, `k2 = h·f(x[i]+k1/2, t[i]+h/2)`,
`h = (tf-ti)/N`; `k1` enters only through the evaluation point of `k2`. -/
theorem rk2_update_rule (f : ℚ → ℚ → ℚ) (N : ℕ) (hN : 2 ≤ N)
    (xi ti tf : ℚ) (i : ℕ) (hi : i ≤ N - 2) (h xv tv k1 k2 : ℚ)
    (hh : h = (tf - ti) / (N : ℚ))
    (hx : xv = (RK2 f N xi ti tf).getD i 0)
    (ht : tv = (linspace ti tf N).getD i 0)
    (hk1 : k1 = h * f xv tv)
    (hk2 : k2 = h * f (xv + k1 / 2) (tv + h / 2)) :
    (RK2 f N xi ti tf).getD (i + 1) 0 = xv + k2 := by
  subst hh hx ht hk1 hk2
  have hb : i + 1 < (linspace ti tf N).length := by
    rw [linspace_length]; omega
  exact fill_getD_succ (rk2Step f ((tf - ti) / (N : ℚ)))
    (linspace ti tf N) xi i hb

/-- C3 witness at `f(x,t) = x + t`, `N = 3`, `i = 0`. -/
theorem rk2_update_rule_holds :
    2 ≤ 3 ∧ 0 ≤ 3 - 2 ∧
    (RK2 (fun x t => x + t) 3 0 0 1).getD (0 + 1) 0 =
      (RK2 (fun x t => x + t) 3 0 0 1).getD 0 0 +
        (((1 : ℚ) - 0) / ((3 : ℕ) : ℚ)) *
          (((RK2 (fun x t => x + t) 3 0 0 1).getD 0 0 +
              (((1 : ℚ) - 0) / ((3 : ℕ) : ℚ)) *
                ((RK2 (fun x t => x + t) 3 0 0 1).getD 0 0 +
                  (linspace 0 1 3).getD 0 0) / 2) +
            ((linspace 0 1 3).getD 0 0 +
              (((1 : ℚ) - 0) / ((3 : ℕ) : ℚ)) / 2)) :=
  ⟨by norm_num, by norm_num,
    rk2_update_rule (fun x t => x + t) 3 (by norm_num) 0 0 1 0 (by norm_num)
      _ _ _ _ _ rfl rfl rfl rfl rfl⟩

/-- C1: for `N ≥ 2` and `i ≤ N-2`, RK4 satisfies
`x[i+1] = x[i] + (1/6)(k1 + 2k2 + 2k3 + k4)` with the four classical
stages evaluated at `h = (tf-ti)/N` and grid point `t[i]`. -/
theorem rk4_update_rule (f : ℚ → ℚ → ℚ) (N : ℕ) (hN : 2 ≤ N)
    (xi ti tf : ℚ) (i : ℕ) (hi : i ≤ N - 2) (h xv tv k1 k2 k3 k4 : ℚ)
    (hh : h = (tf - ti) / (N : ℚ))
    (hx : xv = (RK4 f N xi ti tf).getD i 0)
    (ht : tv = (linspace ti tf N).getD i 0)
    (hk1 : k1 = h * f xv tv)
    (hk2 : k2 = h * f (xv + k1 / 2) (tv + h / 2))
    (hk3 : k3 = h * f (xv + k2 / 2) (tv + h / 2))
    (hk4 : k4 = h * f (xv + k3) (tv + h)) :
    (RK4 f N xi ti tf).getD (i + 1) 0 =
      xv + (1 / 6) * (k1 + 2 * k2 + 2 * k3 + k4) := by
  subst hh hx ht hk1 hk2 hk3 hk4
  have hb : i + 1 < (linspace ti tf N).length := by
    rw [linspace_length]; omega
  exact fill_getD_succ (rk4Step f ((tf - ti) / (N : ℚ)))
    (linspace ti tf N) xi i hb

/-- C1 witness at `f(x,t) = x + t`, `N = 3`, `i = 1`, with the stage
values `rk4WitK1` … `rk4WitK4`. -/
theorem rk4_update_rule_holds :
    2 ≤ 3 ∧ 1 ≤ 3 - 2 ∧
    rk4WitH = ((1 : ℚ) - 0) / ((3 : ℕ) : ℚ) ∧
    rk4WitX = (RK4 (fun x t => x + t) 3 0 0 1).getD 1 0 ∧
    rk4WitT = (linspace 0 1 3).getD 1 0 ∧
    rk4WitK1 = rk4WitH * (rk4WitX + rk4WitT) ∧
    rk4WitK2 = rk4WitH * ((rk4WitX + rk4WitK1 / 2) + (rk4WitT + rk4WitH / 2)) ∧
    rk4WitK3 = rk4WitH * ((rk4WitX + rk4WitK2 / 2) + (rk4WitT + rk4WitH / 2)) ∧
    rk4WitK4 = rk4WitH * ((rk4WitX + rk4WitK3) + (rk4WitT + rk4WitH)) ∧
    (RK4 (fun x t => x + t) 3 0 0 1).getD (1 + 1) 0 =
      rk4WitX + (1 / 6) *
        (rk4WitK1 + 2 * rk4WitK2 + 2 * rk4WitK3 + rk4WitK4) :=
  ⟨by norm_num, by norm_num, rfl, rfl, rfl, rfl, rfl, rfl, rfl,
    rk4_update_rule (fun x t => x + t) 3 (by norm_num) 0 0 1 1 (by norm_num)
      rk4WitH rk4WitX rk4WitT rk4WitK1 rk4WitK2 rk4WitK3 rk4WitK4
      rfl rfl rfl rfl rfl rfl rfl⟩

/-- C6: Euler on the constant derivative `f(x,t) = c` satisfies the
exact closed form `x[i] = xi + i·h·c` with `h = (tf-ti)/N`; consequently
the final value `xi + (N-1)·h·c` differs from `xi + (tf-ti)·c` whenever
`N ≥ 2` and `(tf-ti)·c ≠ 0`. -/
theorem euler_const_closed_form (c xi ti tf : ℚ) (N : ℕ) (hN : 1 ≤ N)
    (i : ℕ) (hi : i ≤ N - 1) :
    (Euler (fun _ _ => c) N xi ti tf).getD i 0 =
      xi + (i : ℚ) * ((tf - ti) / (N : ℚ)) * c ∧
    ((tf - ti) * c ≠ 0 → 2 ≤ N →
      xi + ((N : ℚ) - 1) * ((tf - ti) / (N : ℚ)) * c ≠ xi + (tf - ti) * c) := by
  constructor
  · induction i with
    | zero =>
      have h0 := fill_getD_zero (eulerStep (fun _ _ => c) ((tf - ti) / (N : ℚ)))
        (linspace ti tf N) xi (linspace_ne_nil ti tf N hN)
      show (fill (eulerStep (fun _ _ => c) ((tf - ti) / (N : ℚ)))
        xi (linspace ti tf N)).getD 0 0 = _
      rw [h0]
      simp
    | succ n ih =>
      have hb : n + 1 < (linspace ti tf N).length := by
        rw [linspace_length]; omega
      have hrec := fill_getD_succ (eulerStep (fun _ _ => c) ((tf - ti) / (N : ℚ)))
        (linspace ti tf N) xi n hb
      show (fill (eulerStep (fun _ _ => c) ((tf - ti) / (N : ℚ)))
        xi (linspace ti tf N)).getD (n + 1) 0 = _
      rw [hrec]
      have ihv := ih (by omega)
      rw [show (fill (eulerStep (fun _ _ => c) ((tf - ti) / (N : ℚ)))
        xi (linspace ti tf N)).getD n 0 =
          (Euler (fun _ _ => c) N xi ti tf).getD n 0 from rfl, ihv]
      show xi + (n : ℚ) * ((tf - ti) / (N : ℚ)) * c + ((tf - ti) / (N : ℚ)) * c = _
      push_cast
      ring
  · intro hc h2 heq
    apply hc
    have hQ2 : (2 : ℚ) ≤ (N : ℚ) := by exact_mod_cast h2
    have hN0 : (N : ℚ) ≠ 0 := by linarith
    have h1 : ((N : ℚ) - 1) * ((tf - ti) / (N : ℚ)) * c = (tf - ti) * c := by
      linarith
    field_simp at h1
    nlinarith [h1]

/-- C6 witness at `c = 1`, `N = 3`, `i = 2`, `xi = 0`, `ti = 0`, `tf = 1`. -/
theorem euler_const_closed_form_holds :
    1 ≤ 3 ∧ 2 ≤ 3 - 1 ∧
    ((Euler (fun _ _ => (1 : ℚ)) 3 0 0 1).getD 2 0 =
      0 + (2 : ℚ) * ((1 - 0) / ((3 : ℕ) : ℚ)) * 1 ∧
     ((1 - 0) * (1 : ℚ) ≠ 0 → 2 ≤ 3 →
       (0 : ℚ) + (((3 : ℕ) : ℚ) - 1) * ((1 - 0) / ((3 : ℕ) : ℚ)) * 1 ≠
         0 + (1 - 0) * 1)) :=
  ⟨by norm_num, by norm_num,
    euler_const_closed_form 1 0 0 1 3 (by norm_num) 2 (by norm_num)⟩

/-- C10: on a constant derivative `f(x,t) = c`, Euler, RK2 and RK4
return identical sequences: each stage collapses to `h·c`, so every
update adds exactly `h·c`. -/
theorem steppers_coincide_const (c : ℚ) (N : ℕ) (xi ti tf : ℚ) :
    Euler (fun _ _ => c) N xi ti tf = RK2 (fun _ _ => c) N xi ti tf ∧
    Euler (fun _ _ => c) N xi ti tf = RK4 (fun _ _ => c) N xi ti tf := by
  constructor
  · exact fill_congr _ _
      (fun x t => by simp only [eulerStep, rk2Step]) _ _
  · exact fill_congr _ _
      (fun x t => by simp only [eulerStep, rk4Step]; ring) _ _

/-- C7: with the call-counting instrumentation, a run with `N ≥ 1`
projects to the plain run and performs exactly `1·(N-1)`, `2·(N-1)`,
`4·(N-1)` derivative evaluations for Euler, RK2, RK4 respectively; for
`N = 1` every stepper returns `[xi]` with zero evaluations. -/
theorem stepper_call_counts (f : ℚ → ℚ → ℚ) (N : ℕ) (hN : 1 ≤ N)
    (xi ti tf : ℚ) :
    (EulerC (fun x t => (f x t, 1)) N xi ti tf).2 = 1 * (N - 1) ∧
    (RK2C (fun x t => (f x t, 1)) N xi ti tf).2 = 2 * (N - 1) ∧
    (RK4C (fun x t => (f x t, 1)) N xi ti tf).2 = 4 * (N - 1) ∧
    (EulerC (fun x t => (f x t, 1)) N xi ti tf).1 = Euler f N xi ti tf ∧
    (RK2C (fun x t => (f x t, 1)) N xi ti tf).1 = RK2 f N xi ti tf ∧
    (RK4C (fun x t => (f x t, 1)) N xi ti tf).1 = RK4 f N xi ti tf ∧
    (N = 1 →
      Euler f N xi ti tf = [xi] ∧ RK2 f N xi ti tf = [xi] ∧
      RK4 f N xi ti tf = [xi] ∧
      (EulerC (fun x t => (f x t, 1)) N xi ti tf).2 = 0 ∧
      (RK2C (fun x t => (f x t, 1)) N xi ti tf).2 = 0 ∧
      (RK4C (fun x t => (f x t, 1)) N xi ti tf).2 = 0) := by
  have hlen := linspace_length ti tf N
  refine ⟨?_, ?_, ?_, ?_, ?_, ?_, ?_⟩
  · rw [EulerC, fillC_snd _ 1 (fun x t => rfl), hlen]
  · rw [RK2C, fillC_snd _ 2 (fun x t => rfl), hlen]
  · rw [RK4C, fillC_snd _ 4 (fun x t => rfl), hlen]
  · exact fillC_fst _ _ (fun x t => rfl) _ _
  · exact fillC_fst _ _ (fun x t => rfl) _ _
  · exact fillC_fst _ _ (fun x t => rfl) _ _
  · intro h1
    subst h1
    refine ⟨rfl, rfl, rfl, ?_, ?_, ?_⟩
    · rw [EulerC, fillC_snd _ 1 (fun x t => rfl), hlen]
    · rw [RK2C, fillC_snd _ 2 (fun x t => rfl), hlen]
    · rw [RK4C, fillC_snd _ 4 (fun x t => rfl), hlen]

/-- C7 witness at `f(x,t) = x + t`, `N = 3`. -/
theorem stepper_call_counts_holds :
    1 ≤ 3 ∧
    ((EulerC (fun x t => (x + t, 1)) 3 0 0 1).2 = 1 * (3 - 1) ∧
     (RK2C (fun x t => (x + t, 1)) 3 0 0 1).2 = 2 * (3 - 1) ∧
     (RK4C (fun x t => (x + t, 1)) 3 0 0 1).2 = 4 * (3 - 1) ∧
     (EulerC (fun x t => (x + t, 1)) 3 0 0 1).1 =
       Euler (fun x t => x + t) 3 0 0 1 ∧
     (RK2C (fun x t => (x + t, 1)) 3 0 0 1).1 =
       RK2 (fun x t => x + t) 3 0 0 1 ∧
     (RK4C (fun x t => (x + t, 1)) 3 0 0 1).1 =
       RK4 (fun x t => x + t) 3 0 0 1 ∧
     (3 = 1 →
       Euler (fun x t => x + t) 3 0 0 1 = [0] ∧
       RK2 (fun x t => x + t) 3 0 0 1 = [0] ∧
       RK4 (fun x t => x + t) 3 0 0 1 = [0] ∧
       (EulerC (fun x t => (x + t, 1)) 3 0 0 1).2 = 0 ∧
       (RK2C (fun x t => (x + t, 1)) 3 0 0 1).2 = 0 ∧
       (RK4C (fun x t => (x + t, 1)) 3 0 0 1).2 = 0)) :=
  ⟨by norm_num, stepper_call_counts (fun x t => x + t) 3 (by norm_num) 0 0 1⟩

/-- C8: with a Python-`int` step count, every stepper fails for
`N ≤ 0` instead of returning a sequence: the division `(tf-ti)/N`
raises for `N = 0` and the grid construction raises for `N < 0`. -/
theorem steppers_reject_nonpositive (f : ℚ → ℚ → ℚ) (N : ℤ) (hN : N ≤ 0)
    (xi ti tf : ℚ) :
    (N = 0 →
      EulerRun f N xi ti tf = Except.error zeroDivErr ∧
      RK2Run f N xi ti tf = Except.error zeroDivErr ∧
      RK4Run f N xi ti tf = Except.error zeroDivErr) ∧
    (N < 0 →
      EulerRun f N xi ti tf = Except.error negSamplesErr ∧
      RK2Run f N xi ti tf = Except.error negSamplesErr ∧
      RK4Run f N xi ti tf = Except.error negSamplesErr) ∧
    (∀ xs, EulerRun f N xi ti tf ≠ Except.ok xs) ∧
    (∀ xs, RK2Run f N xi ti tf ≠ Except.ok xs) ∧
    (∀ xs, RK4Run f N xi ti tf ≠ Except.ok xs) := by
  refine ⟨?_, ?_, ?_, ?_, ?_⟩
  · intro h0
    subst h0
    refine ⟨?_, ?_, ?_⟩ <;> rfl
  · intro hneg
    have h0 : N ≠ 0 := by omega
    refine ⟨?_, ?_, ?_⟩ <;>
      simp [EulerRun, RK2Run, RK4Run, h0, hneg]
  all_goals
    intro xs hcon
    rcases hN.lt_or_eq with hneg | h0
    · have h0 : N ≠ 0 := by omega
      simp [EulerRun, RK2Run, RK4Run, h0, hneg] at hcon
    · subst h0
      simp [EulerRun, RK2Run, RK4Run] at hcon

/-- C8 witness at `N = 0` and `N = -2`. -/
theorem steppers_reject_nonpositive_holds :
    (0 : ℤ) ≤ 0 ∧ (-2 : ℤ) ≤ 0 ∧
    EulerRun (fun x t => x + t) 0 0 0 1 = Except.error zeroDivErr ∧
    RK2Run (fun x t => x + t) 0 0 0 1 = Except.error zeroDivErr ∧
    RK4Run (fun x t => x + t) 0 0 0 1 = Except.error zeroDivErr ∧
    EulerRun (fun x t => x + t) (-2) 0 0 1 = Except.error negSamplesErr ∧
    RK2Run (fun x t => x + t) (-2) 0 0 1 = Except.error negSamplesErr ∧
    RK4Run (fun x t => x + t) (-2) 0 0 1 = Except.error negSamplesErr := by
  refine ⟨by norm_num, by norm_num, ?_, ?_, ?_, ?_, ?_, ?_⟩
  · exact ((steppers_reject_nonpositive (fun x t => x + t) 0
      (by norm_num) 0 0 1).1 rfl).1
  · exact ((steppers_reject_nonpositive (fun x t => x + t) 0
      (by norm_num) 0 0 1).1 rfl).2.1
  · exact ((steppers_reject_nonpositive (fun x t => x + t) 0
      (by norm_num) 0 0 1).1 rfl).2.2
  · exact ((steppers_reject_nonpositive (fun x t => x + t) (-2)
      (by norm_num) 0 0 1).2.1 (by norm_num)).1
  · exact ((steppers_reject_nonpositive (fun x t => x + t) (-2)
      (by norm_num) 0 0 1).2.1 (by norm_num)).2.1
  · exact ((steppers_reject_nonpositive (fun x t => x + t) (-2)
      (by norm_num) 0 0 1).2.1 (by norm_num)).2.2

/-- C9: the module is deterministic and stateless: a call's result is a
function of its own arguments only (two calls with equal components
yield equal results), and the result of the last call of any session is
`runCall c`, independent of whatever calls preceded it. -/
theorem calls_independent_and_deterministic (pre1 pre2 : List ModCall)
    (c c1 c2 : ModCall) (hm : c1.m = c2.m) (hf : c1.f = c2.f)
    (hN : c1.N = c2.N) (hxi : c1.xi = c2.xi) (hti : c1.ti = c2.ti)
    (htf : c1.tf = c2.tf) :
    runCall c1 = runCall c2 ∧
    (runCalls (pre1 ++ [c])).getLast? = some (runCall c) ∧
    (runCalls (pre1 ++ [c])).getLast? = (runCalls (pre2 ++ [c])).getLast? := by
  have hcc : c1 = c2 := by
    cases c1
    cases c2
    simp_all
  have hlast : ∀ pre : List ModCall,
      (runCalls (pre ++ [c])).getLast? = some (runCall c) := by
    intro pre
    rw [runCalls, List.map_append]
    simp
  exact ⟨by rw [hcc], hlast pre1, by rw [hlast pre1, hlast pre2]⟩

/-- C9 witness: same call after two different histories. -/
theorem calls_independent_and_deterministic_holds :
    (ModCall.mk Method.euler (fun x t => x + t) 3 0 0 1).m =
      (ModCall.mk Method.euler (fun x t => x + t) 3 0 0 1).m ∧
    (runCall (ModCall.mk Method.euler (fun x t => x + t) 3 0 0 1) =
      runCall (ModCall.mk Method.euler (fun x t => x + t) 3 0 0 1) ∧
    (runCalls ([] ++ [ModCall.mk Method.rk4 (fun x t => x * t) 2 1 0 1])).getLast? =
      some (runCall (ModCall.mk Method.rk4 (fun x t => x * t) 2 1 0 1)) ∧
    (runCalls ([] ++ [ModCall.mk Method.rk4 (fun x t => x * t) 2 1 0 1])).getLast? =
      (runCalls ([ModCall.mk Method.euler (fun x t => x + t) 3 0 0 1] ++
        [ModCall.mk Method.rk4 (fun x t => x * t) 2 1 0 1])).getLast?) :=
  ⟨rfl, calls_independent_and_deterministic []
    [ModCall.mk Method.euler (fun x t => x + t) 3 0 0 1]
    (ModCall.mk Method.rk4 (fun x t => x * t) 2 1 0 1)
    (ModCall.mk Method.euler (fun x t => x + t) 3 0 0 1)
    (ModCall.mk Method.euler (fun x t => x + t) 3 0 0 1)
    rfl rfl rfl rfl rfl rfl⟩
